import Mathlib

/-!
The `nearby` command of hipbot-go (`places.go`)

A shallow embedding of the fetch client `places`, the renderer `htmlPlaces` and
its presentation helpers `stringRating`, `NewLatLngPair`, `openNowHtml` and
`alphabet`, followed by the properties of the requested URL and of the rendered
text.

Modelling conventions.

* A Go `string` is a Lean `String`; Go's `+` on strings is `++`.  `json.Number`
  is a Go string type and is modelled as `String` as well.  Lean strings are
  sequences of Unicode scalar values, so only well-formed UTF-8 text is covered.
* A Go slice `[]Place` is a `List Place`; `places[i]` is the checked access
  `places[i]?`, and a run-time panic (index out of range) is the result `none`.
* Go's `int` index is an `Int` where it is a function argument (`alphabet`).
* The package-level variables that `places.go` reads but does not declare or
  that come from the process environment (`latLngPair`, `googleApiKey`) are the
  fields of `Env`.
* `strings.Title` belongs to the Go standard library.  It is transcribed from
  the library source; the Unicode tables it consults for runes above U+007F are
  the fields of `UnicodeTables`.  `url.QueryEscape` is transcribed from the
  library source as well, for the one mode it uses, byte by byte.
* The network and the JSON decoder are the fields of `Net`: `client.Get` gives a
  transport error or a body, `decoder.Decode` gives the places it leaves in the
  response together with the error it reports.
-/

namespace Places

/-! ## Data model -/

/-- The Go struct `PlaceLocation`: latitude and longitude as `json.Number` text. -/
structure PlaceLocation where
  Lat : String
  Lng : String
  deriving DecidableEq, Repr

/-- The Go struct `Geometry`. -/
structure Geometry where
  PlaceLocation : PlaceLocation
  deriving DecidableEq, Repr

/-- The Go struct `OpenHours`. -/
structure OpenHours where
  OpenNow : Bool
  deriving DecidableEq, Repr

/-- The Go struct `Place`. -/
structure Place where
  Icon : String
  Name : String
  OpenHours : OpenHours
  Rating : String
  Address : String
  Geometry : Geometry
  deriving DecidableEq, Repr

/-- The package-level values read by `places.go`: `latLngPair` is declared in
another file of the package, `googleApiKey` is `os.Getenv("GOOGLE_API_KEY")`. -/
structure Env where
  latLngPair : String
  googleApiKey : String
  deriving DecidableEq, Repr

/-- The Unicode tables of Go's `unicode` package, consulted by `strings.Title`
only for runes above U+007F. -/
structure UnicodeTables where
  IsLetter : Char → Bool
  IsDigit : Char → Bool
  IsSpace : Char → Bool
  ToTitle : Char → Char

/-! ## Constants -/

/-- The constant `GOOGLE_PLACES_ENDPOINT`. -/
def GOOGLE_PLACES_ENDPOINT : String :=
  "https://maps.googleapis.com/maps/api/place/nearbysearch/json"

/-- The constant `GOOGLE_MAPS_ENDPOINT`. -/
def GOOGLE_MAPS_ENDPOINT : String :=
  "https://maps.googleapis.com/maps/api/staticmap"

/-- The variable `googlePlacesParams`. -/
def googlePlacesParams (env : Env) : String :=
  "?location=" ++ env.latLngPair ++ "&sensor=false&rankby=distance"

/-- The variable `googleMapsParams`. -/
def googleMapsParams (env : Env) : String :=
  "?center=" ++ env.latLngPair ++ "&zoom=15&size=600x200&sensor=false"

/-! ## `strings.Title` (Go standard library) -/

/-- Go's `strings.isSeparator`. -/
def isSeparator (U : UnicodeTables) (r : Char) : Bool :=
  if r.toNat ≤ 0x7F then
    if '0'.toNat ≤ r.toNat ∧ r.toNat ≤ '9'.toNat then false
    else if 'a'.toNat ≤ r.toNat ∧ r.toNat ≤ 'z'.toNat then false
    else if 'A'.toNat ≤ r.toNat ∧ r.toNat ≤ 'Z'.toNat then false
    else if r = '_' then false
    else true
  else if U.IsLetter r || U.IsDigit r then false
  else U.IsSpace r

/-- Go's `unicode.ToTitle`: ASCII is handled inline, the rest by the tables. -/
def ToTitle (U : UnicodeTables) (r : Char) : Char :=
  if r.toNat ≤ 0x7F then
    if 'a'.toNat ≤ r.toNat ∧ r.toNat ≤ 'z'.toNat then
      Char.ofNat (r.toNat - ('a'.toNat - 'A'.toNat))
    else r
  else U.ToTitle r

/-- The closure that `strings.Title` hands to `strings.Map`, with its captured
variable `prev` made explicit: a rune is title-cased exactly when the rune
before it is a separator; every other rune is returned as it is. -/
def titleMap (U : UnicodeTables) : Char → List Char → List Char
  | _, [] => []
  | prev, r :: rs =>
    (if isSeparator U prev then ToTitle U r else r) :: titleMap U r rs

/-- Go's `strings.Title`; `prev` starts as a space. -/
def Title (U : UnicodeTables) (s : String) : String :=
  String.mk (titleMap U ' ' s.data)

/-! ## Presentation helpers -/

/-- The function `stringRating`: the rating text, or "N/A" when it has length zero. -/
def stringRating (rating : String) : String :=
  if rating.utf8ByteSize ≠ 0 then rating else "N/A"

/-- The function `NewLatLngPair`: latitude and longitude text joined by a comma. -/
def NewLatLngPair (location : PlaceLocation) : String :=
  location.Lat ++ "," ++ location.Lng

/-- The function `openNowHtml`. -/
def openNowHtml (isOpen : Bool) : String :=
  if isOpen then "<strong>Open Now</strong>" else "<strong>Closed</strong>"

/-- The array literal of `alphabet`. -/
def alphab : List String := ["A", "B", "C", "D", "E", "F", "G"]

/-- The function `alphabet`: indexing the seven-element array; an index outside the array is
the run-time panic, `none`. -/
def alphabet (i : Int) : Option String :=
  if 0 ≤ i ∧ i < 7 then alphab[i.toNat]? else none

/-! ## The renderer -/

/-- The `for i := range places` loop of `htmlPlaces`.  `n` is the number of
iterations that `range` still has to offer and `i` the current index; the state
is the pair of accumulators `(html, markers)`. -/
def rangeLoop (places : List Place) : Nat → Nat → String × String → Option (String × String)
  | 0, _, st => some st
  | n + 1, i, (html, markers) =>
    if i > 3 then some (html, markers)
    else
      match places[i]?, alphabet (i : Int) with
      | some p, some a =>
        let html := html ++ ("<li>" ++ p.Name ++ "<br>")
        let html := html ++ (p.Address ++ "<br>")
        let html := html ++ ("<em>Rating: " ++ stringRating p.Rating ++ "</em> | ")
        let html := html ++ (openNowHtml p.OpenHours.OpenNow ++ "<br></li>")
        let markers := markers ++
          ("&markers=color:blue|label:" ++ a ++ "|" ++ NewLatLngPair p.Geometry.PlaceLocation)
        rangeLoop places n (i + 1) (html, markers)
      | _, _ => none

/-- The function `htmlPlaces`: the state of the loop starts as the title line
followed by the list-open tag and an empty marker text; after the loop the
list-close tag and the image tag are appended. -/
def htmlPlaces (U : UnicodeTables) (env : Env) (places : List Place) (query : String) :
    Option String :=
  let html := "<strong>Results for Nearby " ++ Title U query ++ "</strong><br>"
  let html := html ++ "<ul>"
  let markers := ""
  match rangeLoop places places.length 0 (html, markers) with
  | none => none
  | some (html, markers) =>
    let html := html ++ "</ul><br>"
    let html := html ++ ("<img src='" ++ GOOGLE_MAPS_ENDPOINT ++ googleMapsParams env ++ markers ++ "'>")
    some html

/-! ## Reading the rendered text -/

/-- Concatenation of a list of strings, in order. -/
def concatAll : List String → String
  | [] => ""
  | s :: ss => s ++ concatAll ss

/-- The text that one iteration of the loop of `htmlPlaces` appends to `html`
(source lines 112 to 115, joined). -/
def listItem (p : Place) : String :=
  "<li>" ++ p.Name ++ "<br>" ++ p.Address ++ "<br>" ++ "<em>Rating: " ++
    stringRating p.Rating ++ "</em> | " ++ openNowHtml p.OpenHours.OpenNow ++ "<br></li>"

/-- The text that one iteration appends to `markers` (source line 118), for the
label `L`. -/
def markerParam (L : String) (p : Place) : String :=
  "&markers=color:blue|label:" ++ L ++ "|" ++ p.Geometry.PlaceLocation.Lat ++ "," ++
    p.Geometry.PlaceLocation.Lng

/-- The labels of the rendered positions 0 to 3. -/
def renderedLabels : List String := ["A", "B", "C", "D"]

/-- The marker parameters of a result list: one per rendered entry, labelled by
rendered position. -/
def markerParams (places : List Place) : List String :=
  List.zipWith markerParam renderedLabels places

/-- Substring test: `sub` occurs in `s` as a contiguous run of characters. -/
def contains (s sub : String) : Prop := sub.data <:+: s.data

instance (s sub : String) : Decidable (contains s sub) := by
  unfold contains; infer_instance

/-- The number of positions of `s` at which the text `pat` starts. -/
def occurrences (pat : List Char) : List Char → Nat
  | [] => 0
  | c :: rest => (if pat.isPrefixOf (c :: rest) then 1 else 0) + occurrences pat rest

/-- A text without the character `<`, hence without markup of its own. -/
def noMarkup (s : String) : Prop := ∀ c ∈ s.data, c ≠ '<'

instance (s : String) : Decidable (noMarkup s) := by
  unfold noMarkup; infer_instance

/-- The number of list-item opening tags `<li>` in a text. -/
def countListItems (s : String) : Nat := occurrences "<li>".data s.data

/-- The title line of the rendering. -/
def titleLine (U : UnicodeTables) (query : String) : String :=
  "<strong>Results for Nearby " ++ Title U query ++ "</strong><br>"

/-- The image tag of the rendering, for a given list of marker parameters. -/
def imageTag (env : Env) (markers : List String) : String :=
  "<img src='" ++ GOOGLE_MAPS_ENDPOINT ++ "?center=" ++ env.latLngPair ++
    "&zoom=15&size=600x200&sensor=false" ++ concatAll markers ++ "'>"

/-- The rendering as the specification describes it: title line, list-open, the
list items of the first four places, list-close, image tag. -/
def renderSpec (U : UnicodeTables) (env : Env) (places : List Place) (query : String) : String :=
  concatAll
    [titleLine U query, "<ul>", concatAll ((places.take 4).map listItem), "</ul><br>",
      imageTag env (markerParams places)]

/-- Two texts spell the same letters when letter case is ignored. -/
def caseVariant (q base : String) : Prop :=
  q.data.map Char.toLower = base.data.map Char.toLower

instance (q base : String) : Decidable (caseVariant q base) := by
  unfold caseVariant; infer_instance

/-- Splitting a text at every line break `<br>`; `cur` holds the characters of
the current line, latest first. -/
def splitBr : List Char → List Char → List (List Char)
  | cur, [] => [cur.reverse]
  | cur, '<' :: 'b' :: 'r' :: '>' :: rest => cur.reverse :: splitBr [] rest
  | cur, c :: rest => splitBr (c :: cur) rest

/-- The visual lines of a piece of markup: the runs of text between line breaks. -/
def visualLines (s : String) : List String :=
  (splitBr [] s.data).map String.mk

/-! ## `url.QueryEscape` (Go standard library) -/

/-- Go's `url.shouldEscape` for the mode `encodeQueryComponent`, on a byte:
letters, digits and the marks `-`, `_`, `.`, `~` pass; the reserved characters
and everything else are escaped. -/
def shouldEscape (c : Nat) : Bool :=
  if ('a'.toNat ≤ c ∧ c ≤ 'z'.toNat) ∨ ('A'.toNat ≤ c ∧ c ≤ 'Z'.toNat) ∨
      ('0'.toNat ≤ c ∧ c ≤ '9'.toNat) then false
  else if c = '-'.toNat ∨ c = '_'.toNat ∨ c = '.'.toNat ∨ c = '~'.toNat then false
  else true

/-- The digit table `upperhex` of Go's `net/url`. -/
def upperhex : List Char := "0123456789ABCDEF".data

/-- What Go's `url.escape` writes for one byte in the mode
`encodeQueryComponent`: `+` for a space, `%XX` for a byte that must be escaped
(`c>>4` is `c / 16` and `c&15` is `c % 16`), the byte itself otherwise. -/
def escapeByte (c : Nat) : List Char :=
  if c = ' '.toNat then ['+']
  else if shouldEscape c then ['%', upperhex.getD (c / 16) '0', upperhex.getD (c % 16) '0']
  else [Char.ofNat c]

/-- The bytes of a string, as numbers. -/
def utf8Bytes (s : String) : List Nat :=
  (s.data.flatMap String.utf8EncodeChar).map UInt8.toNat

/-- Go's `url.QueryEscape`: every byte of the text is escaped in turn. -/
def QueryEscape (s : String) : String :=
  String.mk ((utf8Bytes s).flatMap escapeByte)

/-- A character that `QueryEscape` can write: one that needs no escaping, or one
of the two escape characters `+` and `%`. -/
def escapedChar (ch : Char) : Prop :=
  shouldEscape ch.toNat = false ∨ ch = '+' ∨ ch = '%'

/-! ## Percent-encoding, read from the standard -/

/-- The upper-case hexadecimal digit of a value below 16, by arithmetic on the
character code. -/
def hexDigit (d : Nat) : Char :=
  if d < 10 then Char.ofNat ('0'.toNat + d) else Char.ofNat ('A'.toNat + (d - 10))

/-- The bytes that stand for themselves in a query component: the ASCII letters
and digits and the four marks of RFC 3986. -/
def unreservedByte (b : Nat) : Bool :=
  decide (b ∈ ("ABCDEFGHIJKLMNOPQRSTUVWXYZabcdefghijklmnopqrstuvwxyz0123456789-_.~".data.map
    Char.toNat))

/-- The encoding of one byte of a query component: a space becomes `+`, an
unreserved byte stands for itself, any other byte becomes `%` followed by its
two hexadecimal digits, high digit first. -/
def percentEncodeByte (b : Nat) : List Char :=
  if b = 32 then ['+']
  else if unreservedByte b then [Char.ofNat b]
  else ['%', hexDigit (b / 16), hexDigit (b % 16)]

/-- The value of a hexadecimal digit, either case (Go's `unhex` with `ishex`). -/
def unhex (c : Char) : Option Nat :=
  if '0'.toNat ≤ c.toNat ∧ c.toNat ≤ '9'.toNat then some (c.toNat - '0'.toNat)
  else if 'a'.toNat ≤ c.toNat ∧ c.toNat ≤ 'f'.toNat then some (c.toNat - 'a'.toNat + 10)
  else if 'A'.toNat ≤ c.toNat ∧ c.toNat ≤ 'F'.toNat then some (c.toNat - 'A'.toNat + 10)
  else none

/-- Reading a query component back into bytes, as the receiving side does
(Go's `url.QueryUnescape`): `%XX` is the byte with those two digits, `+` is a
space, any other character is its own byte; a `%` without two hexadecimal
digits after it is an error. -/
def queryUnescape : List Char → Option (List Nat)
  | [] => some []
  | c :: rest =>
    if c = '%' then
      match rest with
      | h :: l :: rest2 =>
        match unhex h, unhex l, queryUnescape rest2 with
        | some hv, some lv, some bs => some ((hv * 16 + lv) :: bs)
        | _, _, _ => none
      | _ => none
    else
      match queryUnescape rest with
      | some bs => some ((if c = '+' then ' '.toNat else c.toNat) :: bs)
      | none => none

/-! ## The fetch client -/

/-- The collaborators of `places` outside this file: `Get` is `client.Get` through
the proxy, giving a transport error or the response body; `Decode` is
`decoder.Decode` of `encoding/json` on that body, giving the places it leaves in
the response and the error it reports, if any. -/
structure Net where
  Get : String → Except String String
  Decode : String → List Place × Option String

/-- The local `additionalParams` of `places`. -/
def additionalParams (env : Env) (query : String) : String :=
  "key=" ++ env.googleApiKey ++ "&keyword=" ++ QueryEscape query

/-- The local `fullQueryUrl` of `places`. -/
def fullQueryUrl (env : Env) (query : String) : String :=
  GOOGLE_PLACES_ENDPOINT ++ googlePlacesParams env ++ "&" ++ additionalParams env query

/-- The function `places`: a failed GET gives the text "error"; otherwise the
body is decoded, the error of the decoder is dropped, and the places left in
the response are rendered. -/
def places (U : UnicodeTables) (env : Env) (net : Net) (query : String) : Option String :=
  match net.Get (fullQueryUrl env query) with
  | Except.error _ => some "error"
  | Except.ok body =>
    let response := (net.Decode body).1
    htmlPlaces U env response query

/-! ## The loop of `htmlPlaces`, with its accesses recorded -/

/-- The loop `rangeLoop` again, returning next to its result the indices at
which the body ran, in order: each is used once for the accesses `places[i]`
and once for the call `alphabet(i)`. -/
def rangeLoopTraced (places : List Place) :
    Nat → Nat → String × String → List Nat × Option (String × String)
  | 0, _, st => ([], some st)
  | n + 1, i, (html, markers) =>
    if i > 3 then ([], some (html, markers))
    else
      match places[i]?, alphabet (i : Int) with
      | some p, some a =>
        let html := html ++ ("<li>" ++ p.Name ++ "<br>")
        let html := html ++ (p.Address ++ "<br>")
        let html := html ++ ("<em>Rating: " ++ stringRating p.Rating ++ "</em> | ")
        let html := html ++ (openNowHtml p.OpenHours.OpenNow ++ "<br></li>")
        let markers := markers ++
          ("&markers=color:blue|label:" ++ a ++ "|" ++ NewLatLngPair p.Geometry.PlaceLocation)
        let next := rangeLoopTraced places n (i + 1) (html, markers)
        (i :: next.1, next.2)
      | _, _ => ([i], none)

/-- Two places agree on every field except possibly `Icon`. -/
def agreeExceptIcon (p q : Place) : Prop :=
  p.Name = q.Name ∧ p.Address = q.Address ∧ p.Rating = q.Rating ∧
    p.OpenHours.OpenNow = q.OpenHours.OpenNow ∧
    p.Geometry.PlaceLocation.Lat = q.Geometry.PlaceLocation.Lat ∧
    p.Geometry.PlaceLocation.Lng = q.Geometry.PlaceLocation.Lng

/-! ## Sample inputs -/

/-- Tables that know no letter, digit or space above U+007F. -/
def asciiTables : UnicodeTables := ⟨fun _ => false, fun _ => false, fun _ => false, id⟩

def sampleEnv : Env := ⟨"37.78,-122.41", "k"⟩

def cafeA : Place := ⟨"a.png", "Cafe A", ⟨true⟩, "4.5", "1 Main St", ⟨⟨"1.0", "2.0"⟩⟩⟩
def cafeB : Place := ⟨"b.png", "Cafe B", ⟨false⟩, "", "2 Main St", ⟨⟨"3.0", "4.0"⟩⟩⟩
def cafeC : Place := ⟨"c.png", "Cafe C", ⟨true⟩, "3", "3 Main St", ⟨⟨"5", "6"⟩⟩⟩
def cafeD : Place := ⟨"d.png", "Cafe D", ⟨false⟩, "2.1", "4 Main St", ⟨⟨"7", "8"⟩⟩⟩
def cafeE : Place := ⟨"e.png", "Cafe E", ⟨true⟩, "5", "5 Main St", ⟨⟨"9", "10"⟩⟩⟩
def intA : Place := ⟨"a.png", "Cafe A", ⟨true⟩, "4.5", "1 Main St", ⟨⟨"1", "2"⟩⟩⟩
def intB : Place := ⟨"b.png", "Cafe B", ⟨false⟩, "", "2 Main St", ⟨⟨"3", "4"⟩⟩⟩

/-- The place `cafeA` with another icon. -/
def cafeAIcon : Place := ⟨"other.png", "Cafe A", ⟨true⟩, "4.5", "1 Main St", ⟨⟨"1.0", "2.0"⟩⟩⟩

/-- A network whose GET fails. -/
def deadNet : Net :=
  ⟨fun _ => Except.error "proxyconnect tcp: dial tcp: no route to host", fun _ => ([], none)⟩

/-- A network whose GET succeeds with a body that is not JSON; the decoder
reports an error and leaves the response empty. -/
def garbledNet : Net :=
  ⟨fun _ => Except.ok "<html>502</html>",
    fun _ => ([], some "invalid character '<' looking for beginning of value")⟩

/-- A network whose GET succeeds and whose decoder finds two places. -/
def goodNet : Net := ⟨fun _ => Except.ok "...", fun _ => ([cafeA, cafeB], none)⟩

set_option maxRecDepth 8000

/-! ## The loop of `htmlPlaces` in closed form -/

theorem concatAll_cons (s : String) (ss : List String) :
    concatAll (s :: ss) = s ++ concatAll ss := rfl

theorem alphabet_of_drop (i : Nat) (L : String) (Ls : List String)
    (h : renderedLabels.drop i = L :: Ls) :
    alphabet (i : Int) = some L ∧ renderedLabels.drop (i + 1) = Ls := by
  match i, h with
  | 0, h => simp [renderedLabels] at h; obtain ⟨rfl, rfl⟩ := h; exact ⟨by decide, rfl⟩
  | 1, h => simp [renderedLabels] at h; obtain ⟨rfl, rfl⟩ := h; exact ⟨by decide, rfl⟩
  | 2, h => simp [renderedLabels] at h; obtain ⟨rfl, rfl⟩ := h; exact ⟨by decide, rfl⟩
  | 3, h => simp [renderedLabels] at h; obtain ⟨rfl, rfl⟩ := h; exact ⟨by decide, rfl⟩
  | n + 4, h => simp [renderedLabels] at h

theorem rangeLoop_closed (rest : List Place) :
    ∀ (pre : List Place) (html markers : String),
      rangeLoop (pre ++ rest) rest.length pre.length (html, markers) =
        some (html ++ concatAll ((rest.take (4 - pre.length)).map listItem),
              markers ++ concatAll (List.zipWith markerParam (renderedLabels.drop pre.length) rest)) := by
  induction rest with
  | nil => intro pre html markers; simp [rangeLoop, concatAll]
  | cons p rest ih =>
    intro pre html markers
    by_cases hi : pre.length > 3
    · have h4 : 4 - pre.length = 0 := by omega
      have hd : renderedLabels.drop pre.length = [] := by
        apply List.drop_eq_nil_of_le; simp [renderedLabels]; omega
      simp [rangeLoop, hi, h4, hd, concatAll]
    · obtain ⟨L, Ls, hL⟩ : ∃ L Ls, renderedLabels.drop pre.length = L :: Ls := by
        cases hd : renderedLabels.drop pre.length with
        | nil =>
          have := List.drop_eq_nil_iff.mp hd
          simp [renderedLabels] at this; omega
        | cons L Ls => exact ⟨L, Ls, rfl⟩
      obtain ⟨ha, hLs⟩ := alphabet_of_drop pre.length L Ls hL
      have hget : (pre ++ p :: rest)[pre.length]? = some p := by
        rw [List.getElem?_append_right (le_refl _)]; simp
      have hstep := ih (pre ++ [p])
      simp only [List.append_assoc, List.singleton_append, List.length_append,
        List.length_singleton] at hstep
      have h4 : 4 - pre.length = (4 - (pre.length + 1)) + 1 := by omega
      simp only [List.length_cons, rangeLoop, hi, if_false, hget, ha, hstep, hL, hLs, h4,
        List.take_succ_cons, List.map_cons, List.zipWith_cons_cons, concatAll_cons]
      simp [listItem, markerParam, NewLatLngPair, String.ext_iff, String.data_append]

theorem markerParams_take (places : List Place) :
    markerParams (places.take 4) = markerParams places := by
  match places with
  | [] => rfl
  | [_] => rfl
  | [_, _] => rfl
  | [_, _, _] => rfl
  | _ :: _ :: _ :: _ :: _ => simp [markerParams, renderedLabels]

theorem markerParams_length (places : List Place) :
    (markerParams places).length = min places.length 4 := by
  simp [markerParams, renderedLabels, Nat.min_comm]

/-- The renderer always returns, and what it returns is the rendering described
by `renderSpec`. -/
theorem htmlPlaces_eq_renderSpec (U : UnicodeTables) (env : Env) (places : List Place)
    (query : String) :
    htmlPlaces U env places query = some (renderSpec U env places query) := by
  have h := rangeLoop_closed places []
    ("<strong>Results for Nearby " ++ Title U query ++ "</strong><br>" ++ "<ul>") ""
  simp only [List.nil_append, List.length_nil, Nat.sub_zero, List.drop_zero] at h
  simp only [htmlPlaces, h]
  simp [renderSpec, titleLine, imageTag, markerParams, googleMapsParams, concatAll,
    String.ext_iff, String.data_append]

/-! ## Substrings -/

theorem contains_append_left (a b sub : String) (h : contains a sub) : contains (a ++ b) sub := by
  unfold contains at *
  rw [String.data_append]
  exact h.trans (List.infix_append' [] a.data b.data)

theorem contains_append_right (a b sub : String) (h : contains b sub) : contains (a ++ b) sub := by
  unfold contains at *
  rw [String.data_append]
  exact h.trans (List.suffix_append a.data b.data).isInfix

theorem utf8ByteSize_ne_zero (r : String) (h : r ≠ "") : r.utf8ByteSize ≠ 0 := by
  obtain ⟨cs⟩ := r
  cases cs with
  | nil => exact absurd rfl h
  | cons c cs =>
    have := Char.utf8Size_pos c
    simp only [String.utf8ByteSize, String.utf8ByteSize.go]
    omega

/-! ## Counting list items in the text -/

theorem occurrences_cons (pat : List Char) (c : Char) (rest : List Char) :
    occurrences pat (c :: rest) =
      (if pat.isPrefixOf (c :: rest) then 1 else 0) + occurrences pat rest := rfl

theorem occurrences_li_clean (a b : List Char) (h : ∀ c ∈ a, c ≠ '<') :
    occurrences "<li>".data (a ++ b) = occurrences "<li>".data b := by
  induction a with
  | nil => rfl
  | cons c a ih =>
    have hc : c ≠ '<' := h c (List.mem_cons_self _ _)
    have hc2 : ('<' == c) = false := by
      simp only [beq_eq_false_iff_ne, ne_eq]; exact fun e => hc e.symm
    rw [List.cons_append, occurrences_cons, ih (fun x hx => h x (List.mem_cons_of_mem _ hx))]
    have : ("<li>".data.isPrefixOf (c :: (a ++ b))) = false := by
      show (['<', 'l', 'i', '>'].isPrefixOf (c :: (a ++ b))) = false
      simp [List.isPrefixOf, hc2]
    simp [this]

theorem stringRating_clean (r : String) (h : ∀ c ∈ r.data, c ≠ '<') :
    ∀ c ∈ (stringRating r).data, c ≠ '<' := by
  unfold stringRating
  split
  · exact h
  · decide

theorem occurrences_li_open (b : List Char) :
    occurrences "<li>".data ("<li>".data ++ b) = 1 + occurrences "<li>".data b := by
  show occurrences ['<', 'l', 'i', '>'] (['<', 'l', 'i', '>'] ++ b) = _
  simp [occurrences_cons, List.isPrefixOf]

theorem occurrences_li_br (b : List Char) :
    occurrences "<li>".data ("<br>".data ++ b) = occurrences "<li>".data b := by
  show occurrences ['<', 'l', 'i', '>'] (['<', 'b', 'r', '>'] ++ b) = _
  simp [occurrences_cons, List.isPrefixOf]

theorem occurrences_li_rating (b : List Char) :
    occurrences "<li>".data ("<br><em>Rating: ".data ++ b) = occurrences "<li>".data b := by
  show occurrences ['<', 'l', 'i', '>'] (['<', 'b', 'r', '>', '<', 'e', 'm', '>', 'R', 'a', 't',
    'i', 'n', 'g', ':', ' '] ++ b) = _
  simp [occurrences_cons, List.isPrefixOf]

theorem occurrences_li_close (isOpen : Bool) (b : List Char) :
    occurrences "<li>".data
      (("</em> | " ++ openNowHtml isOpen ++ "<br></li>").data ++ b) =
        occurrences "<li>".data b := by
  cases isOpen
  · show occurrences ['<', 'l', 'i', '>'] ("</em> | <strong>Closed</strong><br></li>".data ++ b) = _
    show occurrences ['<', 'l', 'i', '>'] (['<', '/', 'e', 'm', '>', ' ', '|', ' ',
      '<', 's', 't', 'r', 'o', 'n', 'g', '>', 'C', 'l', 'o', 's', 'e', 'd',
      '<', '/', 's', 't', 'r', 'o', 'n', 'g', '>', '<', 'b', 'r', '>',
      '<', '/', 'l', 'i', '>'] ++ b) = _
    simp [occurrences_cons, List.isPrefixOf]
  · show occurrences ['<', 'l', 'i', '>'] (['<', '/', 'e', 'm', '>', ' ', '|', ' ',
      '<', 's', 't', 'r', 'o', 'n', 'g', '>', 'O', 'p', 'e', 'n', ' ', 'N', 'o', 'w',
      '<', '/', 's', 't', 'r', 'o', 'n', 'g', '>', '<', 'b', 'r', '>',
      '<', '/', 'l', 'i', '>'] ++ b) = _
    simp [occurrences_cons, List.isPrefixOf]

theorem occurrences_li_item (p : Place) (rest : List Char)
    (hn : ∀ c ∈ p.Name.data, c ≠ '<') (ha : ∀ c ∈ p.Address.data, c ≠ '<')
    (hr : ∀ c ∈ p.Rating.data, c ≠ '<') :
    occurrences "<li>".data ((listItem p).data ++ rest) = 1 + occurrences "<li>".data rest := by
  have hr2 := stringRating_clean p.Rating hr
  have e : (listItem p).data ++ rest =
      "<li>".data ++ (p.Name.data ++ ("<br>".data ++ (p.Address.data ++
        ("<br><em>Rating: ".data ++ ((stringRating p.Rating).data ++
          (("</em> | " ++ openNowHtml p.OpenHours.OpenNow ++ "<br></li>").data ++ rest)))))) := by
    simp [listItem, String.data_append]
  rw [e, occurrences_li_open, occurrences_li_clean _ _ hn, occurrences_li_br,
    occurrences_li_clean _ _ ha, occurrences_li_rating, occurrences_li_clean _ _ hr2,
    occurrences_li_close]

theorem occurrences_li_items (places : List Place)
    (h : ∀ p ∈ places, (∀ c ∈ p.Name.data, c ≠ '<') ∧ (∀ c ∈ p.Address.data, c ≠ '<') ∧
      (∀ c ∈ p.Rating.data, c ≠ '<')) :
    countListItems (concatAll (places.map listItem)) = places.length := by
  unfold countListItems
  induction places with
  | nil => rfl
  | cons p ps ih =>
    obtain ⟨hn, ha, hr⟩ := h p (List.mem_cons_self _ _)
    rw [List.map_cons, concatAll_cons, String.data_append, occurrences_li_item p _ hn ha hr,
      ih (fun q hq => h q (List.mem_cons_of_mem _ hq)), List.length_cons, Nat.add_comm]

theorem occurrences_li_append (a b : List Char)
    (h : ∀ c ∈ a.drop (a.length - 3), c ≠ '<') :
    occurrences "<li>".data (a ++ b) = occurrences "<li>".data a + occurrences "<li>".data b := by
  induction a with
  | nil => simp [occurrences]
  | cons c a ih =>
    have hpre : ("<li>".data.isPrefixOf (c :: (a ++ b))) = ("<li>".data.isPrefixOf (c :: a)) := by
      show (['<', 'l', 'i', '>'].isPrefixOf (c :: (a ++ b))) =
        (['<', 'l', 'i', '>'].isPrefixOf (c :: a))
      match a, h with
      | [], h =>
        have hc : c ≠ '<' := h c (by simp)
        have hc2 : ('<' == c) = false := by
          simp only [beq_eq_false_iff_ne, ne_eq]; exact fun e => hc e.symm
        simp [List.isPrefixOf, hc2]
      | [x], h =>
        have hc : c ≠ '<' := h c (by simp)
        have hc2 : ('<' == c) = false := by
          simp only [beq_eq_false_iff_ne, ne_eq]; exact fun e => hc e.symm
        simp [List.isPrefixOf, hc2]
      | [x, y], h =>
        have hc : c ≠ '<' := h c (by simp)
        have hc2 : ('<' == c) = false := by
          simp only [beq_eq_false_iff_ne, ne_eq]; exact fun e => hc e.symm
        simp [List.isPrefixOf, hc2]
      | x :: y :: z :: a, _ => simp [List.isPrefixOf]
    have hih : ∀ x ∈ a.drop (a.length - 3), x ≠ '<' := by
      intro x hx
      apply h x
      by_cases hl : 3 ≤ a.length
      · have e : (c :: a).length - 3 = (a.length - 3) + 1 := by
          simp only [List.length_cons]; omega
        rw [e, List.drop_succ_cons]; exact hx
      · have e : (c :: a).length - 3 = 0 := by simp only [List.length_cons]; omega
        have e2 : a.length - 3 = 0 := by omega
        rw [e2] at hx
        rw [e]
        exact List.mem_cons_of_mem _ hx
    rw [List.cons_append, occurrences_cons, occurrences_cons, ih hih, hpre, Nat.add_assoc]

theorem occurrences_li_items_append (places : List Place) (rest : List Char)
    (h : ∀ p ∈ places, noMarkup p.Name ∧ noMarkup p.Address ∧ noMarkup p.Rating) :
    occurrences "<li>".data ((concatAll (places.map listItem)).data ++ rest) =
      places.length + occurrences "<li>".data rest := by
  induction places with
  | nil => simp [concatAll]
  | cons p ps ih =>
    obtain ⟨hn, ha, hr⟩ := h p (List.mem_cons_self _ _)
    rw [List.map_cons, concatAll_cons, String.data_append, List.append_assoc,
      occurrences_li_item p _ hn ha hr, ih (fun q hq => h q (List.mem_cons_of_mem _ hq)),
      List.length_cons]
    omega

theorem noMarkup_markers (ps : List Place) :
    ∀ labels : List String, (∀ L ∈ labels, noMarkup L) →
      (∀ p ∈ ps, noMarkup p.Geometry.PlaceLocation.Lat ∧ noMarkup p.Geometry.PlaceLocation.Lng) →
      noMarkup (concatAll (List.zipWith markerParam labels ps)) := by
  induction ps with
  | nil => intro labels _ _; simp [concatAll, noMarkup]
  | cons p ps ih =>
    intro labels hl hp
    cases labels with
    | nil => simp [concatAll, noMarkup]
    | cons L Ls =>
      have hL := hl L (List.mem_cons_self _ _)
      obtain ⟨hlat, hlng⟩ := hp p (List.mem_cons_self _ _)
      have hrec := ih Ls (fun x hx => hl x (List.mem_cons_of_mem _ hx))
        (fun q hq => hp q (List.mem_cons_of_mem _ hq))
      have hlit : ∀ c ∈ "&markers=color:blue|label:".data, c ≠ '<' := by decide
      intro c hc
      simp only [List.zipWith_cons_cons, concatAll_cons, markerParam, String.data_append,
        List.mem_append] at hc
      rcases hc with ((((hc | hc) | hc) | hc) | hc) | hc
      · rcases hc with hc | hc
        · exact hlit c hc
        · exact hL c hc
      · revert c; decide
      · exact hlat c hc
      · revert c; decide
      · exact hlng c hc
      · exact hrec c hc

theorem countListItems_renderSpec (U : UnicodeTables) (env : Env) (places : List Place)
    (query : String) (hlen : places.length ≤ 4)
    (hq : noMarkup (Title U query)) (he : noMarkup env.latLngPair)
    (hp : ∀ p ∈ places, noMarkup p.Name ∧ noMarkup p.Address ∧ noMarkup p.Rating ∧
      noMarkup p.Geometry.PlaceLocation.Lat ∧ noMarkup p.Geometry.PlaceLocation.Lng) :
    countListItems (renderSpec U env places query) = places.length := by
  have ht : places.take 4 = places := List.take_of_length_le hlen
  have hm : noMarkup (concatAll (markerParams places)) :=
    noMarkup_markers places renderedLabels (by decide) (fun p h => ⟨(hp p h).2.2.2.1, (hp p h).2.2.2.2⟩)
  have htail : ∀ c ∈ (env.latLngPair.data ++ ("&zoom=15&size=600x200&sensor=false".data ++
      ((concatAll (markerParams places)).data ++ "'>".data))), c ≠ '<' := by
    intro c hc
    simp only [List.mem_append] at hc
    rcases hc with hc | hc | hc | hc
    · exact he c hc
    · revert c; decide
    · exact hm c hc
    · revert c; decide
  have e : (renderSpec U env places query).data =
      "<strong>Results for Nearby ".data ++ ((Title U query).data ++
        ("</strong><br><ul>".data ++ ((concatAll (places.map listItem)).data ++
          ("</ul><br><img src='https://maps.googleapis.com/maps/api/staticmap?center=".data ++
            ((env.latLngPair.data ++ ("&zoom=15&size=600x200&sensor=false".data ++
              ((concatAll (markerParams places)).data ++ "'>".data))) ++ []))))) := by
    simp [renderSpec, titleLine, imageTag, ht, concatAll, String.data_append,
      GOOGLE_MAPS_ENDPOINT]
  unfold countListItems
  rw [e, occurrences_li_append _ _ (by decide), occurrences_li_clean _ _ hq,
    occurrences_li_append _ _ (by decide),
    occurrences_li_items_append places _ (fun p h => ⟨(hp p h).1, (hp p h).2.1, (hp p h).2.2.1⟩),
    occurrences_li_append _ _ (by decide), occurrences_li_clean _ _ htail]
  have z1 : occurrences "<li>".data "<strong>Results for Nearby ".data = 0 := by decide
  have z2 : occurrences "<li>".data "</strong><br><ul>".data = 0 := by decide
  have z3 : occurrences "<li>".data
      "</ul><br><img src='https://maps.googleapis.com/maps/api/staticmap?center=".data = 0 := by
    decide
  rw [z1, z2, z3]
  simp [occurrences]

/-! ## The claims -/

/-- C1: for a list of more than 4 places, `htmlPlaces` uses only the first 4 in
input order: the rendering of the list equals the rendering of its first four
elements, and any other list with the same first four elements renders the
same, so no place at index 4 or later contributes a list item or a marker. -/
theorem htmlPlaces_first_four (U : UnicodeTables) (env : Env) (places : List Place)
    (query : String) (_h : 4 < places.length) :
    htmlPlaces U env places query = htmlPlaces U env (places.take 4) query ∧
    ∀ others : List Place, others.take 4 = places.take 4 →
      htmlPlaces U env others query = htmlPlaces U env places query := by
  have key : ∀ ps : List Place,
      htmlPlaces U env ps query = htmlPlaces U env (ps.take 4) query := by
    intro ps
    rw [htmlPlaces_eq_renderSpec, htmlPlaces_eq_renderSpec]
    simp only [renderSpec, markerParams_take, List.take_take, Nat.min_self]
  refine ⟨key places, ?_⟩
  intro others ho
  rw [key others, key places, ho]

theorem htmlPlaces_first_four_witness :
    4 < [cafeA, cafeB, cafeC, cafeD, cafeE].length ∧
    htmlPlaces asciiTables sampleEnv [cafeA, cafeB, cafeC, cafeD, cafeE] "cafe" =
      htmlPlaces asciiTables sampleEnv [cafeA, cafeB, cafeC, cafeD] "cafe" :=
  ⟨by decide,
    (htmlPlaces_first_four asciiTables sampleEnv [cafeA, cafeB, cafeC, cafeD, cafeE] "cafe"
      (by decide)).1⟩

/-- C2: for a list of 0 to 4 places, `htmlPlaces` returns the title line, the
list-open tag, the list items of the places, the list-close tag and the image
tag; there are exactly `places.length` list items, and the i-th is the item of
the i-th place, `<li>` Name `<br>` Address `<br>` rating and open label `</li>`,
carrying that place's Name and Address verbatim.  Counted in the text: when
neither the title, the anchor nor a field of a place holds the character `<`,
the tag `<li>` occurs in the output exactly `places.length` times. -/
theorem htmlPlaces_list_items (U : UnicodeTables) (env : Env) (places : List Place)
    (query : String) (h : places.length ≤ 4) :
    htmlPlaces U env places query =
      some (titleLine U query ++ "<ul>" ++ concatAll (places.map listItem) ++ "</ul><br>" ++
        imageTag env (markerParams places)) ∧
    (places.map listItem).length = places.length ∧
    (∀ (i : Nat) (p : Place), places[i]? = some p →
      (places.map listItem)[i]? =
        some ("<li>" ++ p.Name ++ "<br>" ++ p.Address ++ "<br>" ++
          "<em>Rating: " ++ stringRating p.Rating ++ "</em> | " ++
          openNowHtml p.OpenHours.OpenNow ++ "<br></li>") ∧
      contains (listItem p) p.Name ∧ contains (listItem p) p.Address) ∧
    (noMarkup (Title U query) → noMarkup env.latLngPair →
      (∀ p ∈ places, noMarkup p.Name ∧ noMarkup p.Address ∧ noMarkup p.Rating ∧
        noMarkup p.Geometry.PlaceLocation.Lat ∧ noMarkup p.Geometry.PlaceLocation.Lng) →
      ∃ out, htmlPlaces U env places query = some out ∧ countListItems out = places.length) := by
  refine ⟨?_, by simp, ?_, ?_⟩
  · rw [htmlPlaces_eq_renderSpec]
    have ht : places.take 4 = places := List.take_of_length_le h
    simp [renderSpec, ht, concatAll, String.ext_iff, String.data_append]
  · intro i p hp
    have hitem : listItem p = "<li>" ++ p.Name ++ "<br>" ++ p.Address ++ "<br>" ++
        "<em>Rating: " ++ stringRating p.Rating ++ "</em> | " ++
        openNowHtml p.OpenHours.OpenNow ++ "<br></li>" := by
      simp [listItem, String.ext_iff, String.data_append]
    refine ⟨?_, ?_, ?_⟩
    · rw [← hitem]; simp [List.getElem?_map, hp]
    · rw [hitem]
      exact contains_append_left _ _ _ (contains_append_left _ _ _ (contains_append_left _ _ _
        (contains_append_left _ _ _ (contains_append_left _ _ _ (contains_append_left _ _ _
          (contains_append_left _ _ _ (contains_append_left _ _ _
            (contains_append_right _ _ _ ⟨[], [], by simp⟩))))))))
    · rw [hitem]
      exact contains_append_left _ _ _ (contains_append_left _ _ _ (contains_append_left _ _ _
        (contains_append_left _ _ _ (contains_append_left _ _ _ (contains_append_left _ _ _
          (contains_append_right _ _ _ ⟨[], [], by simp⟩))))))
  · intro hq he hp
    exact ⟨renderSpec U env places query, htmlPlaces_eq_renderSpec U env places query,
      countListItems_renderSpec U env places query h hq he hp⟩

theorem htmlPlaces_list_items_witness :
    [cafeA, cafeB].length ≤ 4 ∧
    htmlPlaces asciiTables sampleEnv [cafeA, cafeB] "cafe" =
      some (titleLine asciiTables "cafe" ++ "<ul>" ++ concatAll ([cafeA, cafeB].map listItem) ++
        "</ul><br>" ++ imageTag sampleEnv (markerParams [cafeA, cafeB])) ∧
    ∃ out, htmlPlaces asciiTables sampleEnv [cafeA, cafeB] "cafe" = some out ∧
      countListItems out = 2 :=
  ⟨by decide,
    (htmlPlaces_list_items asciiTables sampleEnv [cafeA, cafeB] "cafe" (by decide)).1,
    (htmlPlaces_list_items asciiTables sampleEnv [cafeA, cafeB] "cafe" (by decide)).2.2.2
      (by decide) (by decide) (by decide)⟩

/-- C3: the map URL emitted by `htmlPlaces` carries one marker parameter per
rendered entry, `min places.length 4` of them, appended to the fixed
parameters in rendered order; the marker of rendered position k is
`markers=color:blue|label:L|lat,lng` with L the k-th of A, B, C, D and lat, lng
the coordinate text of the k-th place, whatever the entries contain. -/
theorem htmlPlaces_markers (U : UnicodeTables) (env : Env) (places : List Place)
    (query : String) :
    ∃ markers : List String,
      htmlPlaces U env places query =
        some (titleLine U query ++ "<ul>" ++ concatAll ((places.take 4).map listItem) ++
          "</ul><br>" ++
          ("<img src='" ++ GOOGLE_MAPS_ENDPOINT ++ googleMapsParams env ++ concatAll markers ++
            "'>")) ∧
      markers.length = min places.length 4 ∧
      ∀ (k : Nat) (p : Place), k < 4 → places[k]? = some p →
        ∃ L : String, ["A", "B", "C", "D"][k]? = some L ∧
          markers[k]? = some ("&" ++ ("markers=color:blue|label:" ++ L ++ "|" ++
            p.Geometry.PlaceLocation.Lat ++ "," ++ p.Geometry.PlaceLocation.Lng)) := by
  refine ⟨markerParams places, ?_, markerParams_length places, ?_⟩
  · rw [htmlPlaces_eq_renderSpec]
    simp [renderSpec, imageTag, googleMapsParams, concatAll, String.ext_iff, String.data_append]
  · intro k p hk hp
    have hL : ∃ L, renderedLabels[k]? = some L := by
      match k, hk with
      | 0, _ => exact ⟨_, rfl⟩
      | 1, _ => exact ⟨_, rfl⟩
      | 2, _ => exact ⟨_, rfl⟩
      | 3, _ => exact ⟨_, rfl⟩
    obtain ⟨L, hL⟩ := hL
    refine ⟨L, hL, ?_⟩
    simp [markerParams, List.getElem?_zipWith, hL, hp, markerParam, String.ext_iff,
      String.data_append]

theorem htmlPlaces_markers_witness :
    ∃ markers : List String,
      htmlPlaces asciiTables sampleEnv [cafeA, cafeB, cafeC, cafeD, cafeE] "cafe" =
        some (titleLine asciiTables "cafe" ++ "<ul>" ++
          concatAll (([cafeA, cafeB, cafeC, cafeD, cafeE].take 4).map listItem) ++
          "</ul><br>" ++
          ("<img src='" ++ GOOGLE_MAPS_ENDPOINT ++ googleMapsParams sampleEnv ++
            concatAll markers ++ "'>")) ∧
      markers.length = 4 ∧
      markers[1]? = some "&markers=color:blue|label:B|3.0,4.0" := by
  obtain ⟨markers, h1, h2, h3⟩ :=
    htmlPlaces_markers asciiTables sampleEnv [cafeA, cafeB, cafeC, cafeD, cafeE] "cafe"
  refine ⟨markers, h1, h2, ?_⟩
  obtain ⟨L, hL, hm⟩ := h3 1 cafeB (by decide) rfl
  have hB : L = "B" := by
    have : some "B" = some L := hL
    exact (Option.some.inj this).symm
  rw [hm, hB]
  rfl

/-- C4, as stated, fails: the query COFFEE SHOP is a casing of coffee shop, yet
the rendering for it nowhere contains the text Coffee Shop, because
`strings.Title` leaves every letter after the first of a word as it is. -/
theorem title_any_casing_counterexample :
    ¬ ∀ (U : UnicodeTables) (env : Env) (places : List Place) (query : String),
        caseVariant query "coffee shop" →
        ∃ out, htmlPlaces U env places query = some out ∧ contains out "Coffee Shop" := by
  intro h
  obtain ⟨out, hout, hc⟩ := h asciiTables sampleEnv [] "COFFEE SHOP" (by decide)
  have hval : htmlPlaces asciiTables sampleEnv [] "COFFEE SHOP" =
      some ("<strong>Results for Nearby COFFEE SHOP</strong><br><ul></ul><br>" ++
        "<img src='https://maps.googleapis.com/maps/api/staticmap?center=37.78,-122.41" ++
        "&zoom=15&size=600x200&sensor=false'>") := by decide
  rw [hval] at hout
  cases hout
  revert hc
  decide

/-- C4, amended: when the letters after the first of each word are lower case
(coffee shop, Coffee shop, coffee Shop, Coffee Shop) the rendering opens with
the title line containing Coffee Shop; a letter that does not start a word
keeps its casing, so the title for COFFEE SHOP reads COFFEE SHOP. -/
theorem title_word_initial_capitalized (U : UnicodeTables) (env : Env) (places : List Place)
    (query : String)
    (h : query = "coffee shop" ∨ query = "Coffee shop" ∨ query = "coffee Shop" ∨
      query = "Coffee Shop") :
    (∃ rest, htmlPlaces U env places query =
      some ("<strong>Results for Nearby " ++ "Coffee Shop" ++ "</strong><br>" ++ rest)) ∧
    (∃ rest, htmlPlaces U env places "COFFEE SHOP" =
      some ("<strong>Results for Nearby " ++ "COFFEE SHOP" ++ "</strong><br>" ++ rest)) := by
  have key : ∀ q t : String, Title U q = t →
      ∃ rest, htmlPlaces U env places q =
        some ("<strong>Results for Nearby " ++ t ++ "</strong><br>" ++ rest) := by
    intro q t ht
    refine ⟨"<ul>" ++ concatAll ((places.take 4).map listItem) ++ "</ul><br>" ++
      imageTag env (markerParams places), ?_⟩
    rw [htmlPlaces_eq_renderSpec]
    simp [renderSpec, titleLine, ht, concatAll, String.ext_iff, String.data_append]
  refine ⟨?_, key _ _ rfl⟩
  rcases h with rfl | rfl | rfl | rfl <;> exact key _ _ rfl

theorem title_word_initial_capitalized_witness :
    ∃ rest, htmlPlaces asciiTables sampleEnv [cafeA] "coffee shop" =
      some ("<strong>Results for Nearby " ++ "Coffee Shop" ++ "</strong><br>" ++ rest) :=
  (title_word_initial_capitalized asciiTables sampleEnv [cafeA] "coffee shop" (Or.inl rfl)).1

/-- C5, as stated, fails: for two entries whose decoded coordinates read
1.0, 2.0 and 3.0, 4.0 and the query cafe, the rendering does not contain the
marker `markers=color:blue|label:A|1,2`; the coordinate text is copied as it
was decoded, giving `label:A|1.0,2.0`. -/
theorem scenario_decimal_coordinates_counterexample :
    ∃ out, htmlPlaces asciiTables sampleEnv [cafeA, cafeB] "cafe" = some out ∧
      ¬ contains out "markers=color:blue|label:A|1,2" ∧
      contains out "markers=color:blue|label:A|1.0,2.0" := by
  refine ⟨"<strong>Results for Nearby Cafe</strong><br><ul>" ++
    "<li>Cafe A<br>1 Main St<br><em>Rating: 4.5</em> | <strong>Open Now</strong><br></li>" ++
    "<li>Cafe B<br>2 Main St<br><em>Rating: N/A</em> | <strong>Closed</strong><br></li>" ++
    "</ul><br><img src='https://maps.googleapis.com/maps/api/staticmap" ++
    "?center=37.78,-122.41&zoom=15&size=600x200&sensor=false" ++
    "&markers=color:blue|label:A|1.0,2.0&markers=color:blue|label:B|3.0,4.0'>", ?_, ?_, ?_⟩
  · decide
  · decide
  · decide

/-- C5, amended: for exactly two entries and the query cafe the rendering is
the title line for Cafe, the two list items in input order, and the image tag
whose URL ends with the marker labelled A followed by the marker labelled B,
each carrying the coordinate text of its entry verbatim; with coordinate texts
1, 2 and 3, 4 these are `markers=color:blue|label:A|1,2` followed by
`markers=color:blue|label:B|3,4`. -/
theorem scenario_two_entries (U : UnicodeTables) (env : Env) (pa pb : Place)
    (ha : pa.Geometry.PlaceLocation = ⟨"1", "2"⟩)
    (hb : pb.Geometry.PlaceLocation = ⟨"3", "4"⟩) :
    htmlPlaces U env [pa, pb] "cafe" =
      some ("<strong>Results for Nearby Cafe</strong><br>" ++ "<ul>" ++
        listItem pa ++ listItem pb ++ "</ul><br>" ++
        "<img src='" ++ GOOGLE_MAPS_ENDPOINT ++ googleMapsParams env ++
        "&" ++ "markers=color:blue|label:A|1,2" ++
        "&" ++ "markers=color:blue|label:B|3,4" ++ "'>") ∧
    ∀ qa qb : Place,
      htmlPlaces U env [qa, qb] "cafe" =
        some ("<strong>Results for Nearby Cafe</strong><br>" ++ "<ul>" ++
          listItem qa ++ listItem qb ++ "</ul><br>" ++
          "<img src='" ++ GOOGLE_MAPS_ENDPOINT ++ googleMapsParams env ++
          "&" ++ "markers=color:blue|label:A|" ++
            qa.Geometry.PlaceLocation.Lat ++ "," ++ qa.Geometry.PlaceLocation.Lng ++
          "&" ++ "markers=color:blue|label:B|" ++
            qb.Geometry.PlaceLocation.Lat ++ "," ++ qb.Geometry.PlaceLocation.Lng ++ "'>") := by
  have hT : Title U "cafe" = "Cafe" := rfl
  have gen : ∀ qa qb : Place,
      htmlPlaces U env [qa, qb] "cafe" =
        some ("<strong>Results for Nearby Cafe</strong><br>" ++ "<ul>" ++
          listItem qa ++ listItem qb ++ "</ul><br>" ++
          "<img src='" ++ GOOGLE_MAPS_ENDPOINT ++ googleMapsParams env ++
          "&" ++ "markers=color:blue|label:A|" ++
            qa.Geometry.PlaceLocation.Lat ++ "," ++ qa.Geometry.PlaceLocation.Lng ++
          "&" ++ "markers=color:blue|label:B|" ++
            qb.Geometry.PlaceLocation.Lat ++ "," ++ qb.Geometry.PlaceLocation.Lng ++ "'>") := by
    intro qa qb
    rw [htmlPlaces_eq_renderSpec]
    simp [renderSpec, titleLine, hT, imageTag, googleMapsParams, markerParams, renderedLabels,
      markerParam, concatAll, String.ext_iff, String.data_append]
  refine ⟨?_, gen⟩
  rw [gen pa pb, ha, hb]
  simp [String.ext_iff, String.data_append]

theorem scenario_two_entries_witness :
    intA.Geometry.PlaceLocation = ⟨"1", "2"⟩ ∧ intB.Geometry.PlaceLocation = ⟨"3", "4"⟩ ∧
    htmlPlaces asciiTables sampleEnv [intA, intB] "cafe" =
      some ("<strong>Results for Nearby Cafe</strong><br>" ++ "<ul>" ++
        listItem intA ++ listItem intB ++ "</ul><br>" ++
        "<img src='" ++ GOOGLE_MAPS_ENDPOINT ++ googleMapsParams sampleEnv ++
        "&" ++ "markers=color:blue|label:A|1,2" ++
        "&" ++ "markers=color:blue|label:B|3,4" ++ "'>") :=
  ⟨rfl, rfl, (scenario_two_entries asciiTables sampleEnv intA intB rfl rfl).1⟩

/-- C6: the output of `htmlPlaces` is assembled in the fixed order title line,
list-open `<ul>`, the N = min(len(places), 4) list items in input order,
list-close `</ul><br>`, and the image tag on the static-map endpoint with the
center, zoom, size and sensor parameters followed by the accumulated marker
parameters; nothing else is emitted. -/
theorem htmlPlaces_assembly_order (U : UnicodeTables) (env : Env) (places : List Place)
    (query : String) :
    htmlPlaces U env places query =
      some (concatAll
        [ "<strong>Results for Nearby " ++ Title U query ++ "</strong><br>",
          "<ul>",
          concatAll ((places.take (min places.length 4)).map listItem),
          "</ul><br>",
          "<img src='" ++ GOOGLE_MAPS_ENDPOINT ++
            ("?center=" ++ env.latLngPair ++ "&zoom=15&size=600x200&sensor=false") ++
            concatAll (markerParams places) ++ "'>" ]) ∧
    ((places.take (min places.length 4)).map listItem).length = min places.length 4 := by
  have ht : places.take (min places.length 4) = places.take 4 := by
    rcases Nat.le_total places.length 4 with h | h
    · rw [Nat.min_eq_left h, List.take_of_length_le h, List.take_of_length_le (le_refl _)]
    · rw [Nat.min_eq_right h]
  constructor
  · rw [htmlPlaces_eq_renderSpec, ht]
    simp [renderSpec, titleLine, imageTag, concatAll, String.ext_iff, String.data_append]
  · simp

/-- C7, as stated, fails: in the list item rendered for a place with rating 4.5
that is open, the rating and the open label stand on the same visual line,
separated by a vertical bar and not by a line break; the item has three lines
of fields, not four. -/
theorem list_item_own_lines_counterexample :
    htmlPlaces asciiTables sampleEnv [cafeA] "cafe" =
      some ("<strong>Results for Nearby Cafe</strong><br><ul>" ++ listItem cafeA ++
        "</ul><br><img src='https://maps.googleapis.com/maps/api/staticmap" ++
        "?center=37.78,-122.41&zoom=15&size=600x200&sensor=false" ++
        "&markers=color:blue|label:A|1.0,2.0'>") ∧
    visualLines (listItem cafeA) =
      ["<li>Cafe A", "1 Main St", "<em>Rating: 4.5</em> | <strong>Open Now</strong>", "</li>"] ∧
    ∃ line ∈ visualLines (listItem cafeA),
      contains line (stringRating cafeA.Rating) ∧
      contains line (openNowHtml cafeA.OpenHours.OpenNow) := by
  refine ⟨by decide, by decide, ?_⟩
  refine ⟨"<em>Rating: 4.5</em> | <strong>Open Now</strong>", by decide, by decide, by decide⟩

/-- C7, amended: the list item of every rendered place shows name, address,
rating (as produced by `stringRating`) and open/closed label (as produced by
`openNowHtml`) in that fixed order; the name and the address are each followed
by a line break, and the rating and the label share the third line, the rating
inside `<em>Rating: ...</em>`, then a vertical bar, then the label and a closing
line break. -/
theorem list_item_layout (U : UnicodeTables) (env : Env) (places : List Place)
    (query : String) :
    htmlPlaces U env places query =
      some (titleLine U query ++ "<ul>" ++
        concatAll ((places.take 4).map fun p =>
          "<li>" ++ p.Name ++ "<br>" ++
          p.Address ++ "<br>" ++
          "<em>Rating: " ++ stringRating p.Rating ++ "</em>" ++ " | " ++
            openNowHtml p.OpenHours.OpenNow ++ "<br>" ++ "</li>") ++
        "</ul><br>" ++ imageTag env (markerParams places)) := by
  rw [htmlPlaces_eq_renderSpec]
  have hitem : (fun p : Place =>
      "<li>" ++ p.Name ++ "<br>" ++ p.Address ++ "<br>" ++
      "<em>Rating: " ++ stringRating p.Rating ++ "</em>" ++ " | " ++
        openNowHtml p.OpenHours.OpenNow ++ "<br>" ++ "</li>") = listItem := by
    funext p
    simp [listItem, String.ext_iff, String.data_append]
  rw [hitem]
  simp [renderSpec, concatAll, String.ext_iff, String.data_append]

/-- C8: `stringRating` returns N/A for the empty rating and returns every
non-empty rating text unchanged. -/
theorem stringRating_spec :
    stringRating "" = "N/A" ∧ ∀ r : String, r ≠ "" → stringRating r = r := by
  refine ⟨rfl, ?_⟩
  intro r hr
  simp [stringRating, utf8ByteSize_ne_zero r hr]

theorem stringRating_spec_witness : "4.5" ≠ "" ∧ stringRating "4.5" = "4.5" :=
  ⟨by decide, stringRating_spec.2 "4.5" (by decide)⟩

/-- C9: `openNowHtml true` contains Open Now, `openNowHtml false` contains
Closed, each label is wrapped in `<strong>` and `</strong>`, and the two
results differ. -/
theorem openNowHtml_spec :
    openNowHtml true = "<strong>" ++ "Open Now" ++ "</strong>" ∧
    openNowHtml false = "<strong>" ++ "Closed" ++ "</strong>" ∧
    contains (openNowHtml true) "Open Now" ∧
    contains (openNowHtml false) "Closed" ∧
    openNowHtml true ≠ openNowHtml false := by
  refine ⟨rfl, rfl, by decide, by decide, by decide⟩

/-- C10: `alphabet i` returns the single upper-case letter at position i of
ABCDEFG for every integer i with 0 ≤ i ≤ 6, fails for every integer outside
that range (negative ones included), and so returns a value if and only if
0 ≤ i ≤ 6. -/
theorem alphabet_spec (i : Int) :
    (0 ≤ i ∧ i ≤ 6 →
      ∃ c : Char, "ABCDEFG".data[i.toNat]? = some c ∧ c.isUpper = true ∧
        alphabet i = some (String.singleton c)) ∧
    (i < 0 ∨ 6 < i → alphabet i = none) ∧
    ((alphabet i).isSome = true ↔ 0 ≤ i ∧ i ≤ 6) := by
  refine ⟨?_, ?_, ?_⟩
  · rintro ⟨h0, h6⟩
    interval_cases i
    · exact ⟨'A', rfl, rfl, rfl⟩
    · exact ⟨'B', rfl, rfl, rfl⟩
    · exact ⟨'C', rfl, rfl, rfl⟩
    · exact ⟨'D', rfl, rfl, rfl⟩
    · exact ⟨'E', rfl, rfl, rfl⟩
    · exact ⟨'F', rfl, rfl, rfl⟩
    · exact ⟨'G', rfl, rfl, rfl⟩
  · intro h
    have : ¬ (0 ≤ i ∧ i < 7) := by omega
    simp [alphabet, this]
  · constructor
    · intro h
      by_contra hn
      have : ¬ (0 ≤ i ∧ i < 7) := by omega
      simp [alphabet, this] at h
    · rintro ⟨h0, h6⟩
      interval_cases i <;> rfl

theorem alphabet_spec_witness :
    (∃ c : Char, "ABCDEFG".data[(3 : Int).toNat]? = some c ∧ c.isUpper = true ∧
        alphabet 3 = some (String.singleton c)) ∧
    alphabet (-1) = none ∧ alphabet 7 = none :=
  ⟨(alphabet_spec 3).1 ⟨by decide, by decide⟩,
    (alphabet_spec (-1)).2.1 (Or.inl (by decide)),
    (alphabet_spec 7).2.1 (Or.inr (by decide))⟩

/-! ## Further lemmas -/

theorem htmlPlaces_ne_sentinel (U : UnicodeTables) (env : Env) (places : List Place)
    (query : String) : htmlPlaces U env places query ≠ some "error" := by
  rw [htmlPlaces_eq_renderSpec]
  intro h
  have hd := congrArg String.data (Option.some.inj h)
  simp [renderSpec, titleLine, concatAll, String.data_append] at hd

theorem htmlPlaces_isSome (U : UnicodeTables) (env : Env) (places : List Place)
    (query : String) : (htmlPlaces U env places query).isSome = true := by
  rw [htmlPlaces_eq_renderSpec]; rfl

theorem places_of_ok (U : UnicodeTables) (env : Env) (net : Net) (query body : String)
    (h : net.Get (fullQueryUrl env query) = Except.ok body) :
    places U env net query = htmlPlaces U env (net.Decode body).1 query := by
  simp [places, h]

theorem places_of_error (U : UnicodeTables) (env : Env) (net : Net) (query e : String)
    (h : net.Get (fullQueryUrl env query) = Except.error e) :
    places U env net query = some "error" := by
  simp [places, h]

/-! ## The claims, continued -/

/-- C11: with zero entries `htmlPlaces` renders, for every query, the title line
followed by `<ul></ul><br>` and an image tag whose URL is the static-map endpoint
with only the center, zoom, size and sensor parameters, no marker parameter; for
1 to 3 entries exactly the available entries are rendered, one list item and one
marker each, in input order. -/
theorem htmlPlaces_few_entries (U : UnicodeTables) (env : Env) (query : String) :
    htmlPlaces U env [] query =
      some ("<strong>Results for Nearby " ++ Title U query ++ "</strong><br>" ++
        "<ul></ul><br>" ++
        "<img src='" ++ GOOGLE_MAPS_ENDPOINT ++
          "?center=" ++ env.latLngPair ++ "&zoom=15&size=600x200&sensor=false" ++ "'>") ∧
    ∀ places : List Place, 1 ≤ places.length → places.length ≤ 3 →
      htmlPlaces U env places query =
        some ("<strong>Results for Nearby " ++ Title U query ++ "</strong><br>" ++
          "<ul>" ++ concatAll (places.map listItem) ++ "</ul><br>" ++
          "<img src='" ++ GOOGLE_MAPS_ENDPOINT ++
            "?center=" ++ env.latLngPair ++ "&zoom=15&size=600x200&sensor=false" ++
            concatAll (markerParams places) ++ "'>") ∧
      (places.map listItem).length = places.length ∧
      (markerParams places).length = places.length := by
  constructor
  · rw [htmlPlaces_eq_renderSpec]
    simp [renderSpec, titleLine, imageTag, markerParams, concatAll, String.ext_iff,
      String.data_append]
  · intro places _ h3
    have ht : places.take 4 = places := List.take_of_length_le (by omega)
    refine ⟨?_, by simp, ?_⟩
    · rw [htmlPlaces_eq_renderSpec]
      simp [renderSpec, titleLine, imageTag, ht, concatAll, String.ext_iff, String.data_append]
    · rw [markerParams_length]; omega

theorem htmlPlaces_few_entries_witness :
    1 ≤ [cafeA, cafeB].length ∧ [cafeA, cafeB].length ≤ 3 ∧
    (markerParams [cafeA, cafeB]).length = [cafeA, cafeB].length :=
  ⟨by decide, by decide,
    ((htmlPlaces_few_entries asciiTables sampleEnv "cafe").2 [cafeA, cafeB]
      (by decide) (by decide)).2.2⟩


/-! ## The text produced by `QueryEscape` -/

theorem shouldEscape_lt (c : Nat) (h : shouldEscape c = false) : c < 128 := by
  unfold shouldEscape at h
  by_contra hc
  have hc : 128 ≤ c := Nat.le_of_not_lt hc
  have e1 : 'a'.toNat = 97 := rfl
  have e2 : 'z'.toNat = 122 := rfl
  have e3 : 'A'.toNat = 65 := rfl
  have e4 : 'Z'.toNat = 90 := rfl
  have e5 : '0'.toNat = 48 := rfl
  have e6 : '9'.toNat = 57 := rfl
  have e7 : '-'.toNat = 45 := rfl
  have e8 : '_'.toNat = 95 := rfl
  have e9 : '.'.toNat = 46 := rfl
  have e10 : '~'.toNat = 126 := rfl
  rw [e1, e2, e3, e4, e5, e6, e7, e8, e9, e10] at h
  have n1 : ¬ ((97 ≤ c ∧ c ≤ 122) ∨ (65 ≤ c ∧ c ≤ 90) ∨ (48 ≤ c ∧ c ≤ 57)) := by omega
  have n2 : ¬ (c = 45 ∨ c = 95 ∨ c = 46 ∨ c = 126) := by omega
  simp [n1, n2] at h

theorem toNat_ofNat_small : ∀ c : Nat, c < 128 → (Char.ofNat c).toNat = c := by
  decide

theorem upperhex_escaped : ∀ n : Nat, n < 16 → escapedChar (upperhex.getD n '0') := by
  unfold escapedChar
  decide

theorem escapeByte_escaped (c : Nat) (hc : c < 256) : ∀ ch ∈ escapeByte c, escapedChar ch := by
  intro ch hch
  unfold escapeByte at hch
  split at hch
  · simp at hch; subst hch; exact Or.inr (Or.inl rfl)
  · split at hch
    · simp only [List.mem_cons, List.mem_singleton, List.not_mem_nil, or_false] at hch
      rcases hch with rfl | rfl | rfl
      · exact Or.inr (Or.inr rfl)
      · exact upperhex_escaped _ (by omega)
      · exact upperhex_escaped _ (Nat.mod_lt _ (by decide))
    · rename_i hs
      simp at hch; subst hch
      have hs : shouldEscape c = false := by simpa using hs
      exact Or.inl (by rw [toNat_ofNat_small c (shouldEscape_lt c hs)]; exact hs)

theorem utf8Bytes_lt (s : String) : ∀ b ∈ utf8Bytes s, b < 256 := by
  intro b hb
  unfold utf8Bytes at hb
  obtain ⟨u, _, rfl⟩ := List.mem_map.mp hb
  exact u.val.isLt

theorem QueryEscape_escaped (s : String) : ∀ ch ∈ (QueryEscape s).data, escapedChar ch := by
  intro ch hch
  unfold QueryEscape at hch
  obtain ⟨b, hb, hin⟩ := List.mem_flatMap.mp hch
  exact escapeByte_escaped b (utf8Bytes_lt s b hb) ch hin

theorem escapedChar_not_delimiter (ch : Char) (h : escapedChar ch) :
    ch ≠ '&' ∧ ch ≠ '=' ∧ ch ≠ '#' ∧ ch ≠ ' ' ∧ ch ≠ '?' := by
  refine ⟨?_, ?_, ?_, ?_, ?_⟩ <;>
  · rintro rfl
    revert h
    unfold escapedChar
    decide

theorem count_QueryEscape (s : String) (d : Char)
    (hd : d = '&' ∨ d = '=' ∨ d = '#' ∨ d = ' ' ∨ d = '?') :
    (QueryEscape s).data.count d = 0 := by
  apply List.count_eq_zero.mpr
  intro hmem
  have := escapedChar_not_delimiter d (QueryEscape_escaped s d hmem)
  rcases hd with rfl | rfl | rfl | rfl | rfl <;> simp at this


/-! ## `QueryEscape` against the standard encoding -/

theorem escapeByte_eq_percentEncodeByte : ∀ b : Nat, b < 256 →
    escapeByte b = percentEncodeByte b := by
  decide

theorem unhex_upperhex : ∀ n : Nat, n < 16 → unhex (upperhex.getD n '0') = some n := by
  decide

theorem plain_byte : ∀ b : Nat, b < 128 → shouldEscape b = false →
    Char.ofNat b ≠ '%' ∧ Char.ofNat b ≠ '+' ∧ (Char.ofNat b).toNat = b := by
  decide

theorem queryUnescape_percent (h l : Char) (rest : List Char) :
    queryUnescape ('%' :: h :: l :: rest) =
      match unhex h, unhex l, queryUnescape rest with
      | some hv, some lv, some bs => some ((hv * 16 + lv) :: bs)
      | _, _, _ => none := by
  rw [queryUnescape]
  simp only [if_true]

theorem queryUnescape_plain (c : Char) (rest : List Char) (hc : c ≠ '%') :
    queryUnescape (c :: rest) =
      (queryUnescape rest).map (List.cons (if c = '+' then ' '.toNat else c.toNat)) := by
  have e : queryUnescape (c :: rest) =
      if c = '%' then
        match rest with
        | h :: l :: rest2 =>
          match unhex h, unhex l, queryUnescape rest2 with
          | some hv, some lv, some bs => some ((hv * 16 + lv) :: bs)
          | _, _, _ => none
        | _ => none
      else
        match queryUnescape rest with
        | some bs => some ((if c = '+' then ' '.toNat else c.toNat) :: bs)
        | none => none := by
    rw [queryUnescape.eq_def]
  rw [e]
  simp only [hc, if_false]
  cases queryUnescape rest <;> rfl

theorem queryUnescape_escapeByte (b : Nat) (hb : b < 256) (rest : List Char) :
    queryUnescape (escapeByte b ++ rest) = (queryUnescape rest).map (List.cons b) := by
  unfold escapeByte
  split
  · rename_i h32
    have h32 : b = 32 := h32
    subst h32
    rw [List.singleton_append, queryUnescape_plain _ _ (by decide)]
    rfl
  · split
    · have h1 := unhex_upperhex (b / 16) (by omega)
      have h2 := unhex_upperhex (b % 16) (Nat.mod_lt _ (by decide))
      have h3 : b / 16 * 16 + b % 16 = b := by omega
      rw [List.cons_append, List.cons_append, List.cons_append, List.nil_append,
        queryUnescape_percent, h1, h2]
      cases queryUnescape rest with
      | none => rfl
      | some bs => simp only [h3, Option.map_some']
    · rename_i _ hs
      have hs : shouldEscape b = false := by simpa using hs
      obtain ⟨p1, p2, p3⟩ := plain_byte b (shouldEscape_lt b hs) hs
      rw [List.singleton_append, queryUnescape_plain _ _ p1]
      simp only [p2, if_false, p3]

theorem queryUnescape_escape (bs : List Nat) (h : ∀ b ∈ bs, b < 256) :
    queryUnescape (bs.flatMap escapeByte) = some bs := by
  induction bs with
  | nil => rfl
  | cons b bs ih =>
    rw [List.flatMap_cons, queryUnescape_escapeByte b (h b (List.mem_cons_self _ _)),
      ih (fun x hx => h x (List.mem_cons_of_mem _ hx))]
    rfl

theorem flatMap_escapeByte (bs : List Nat) (h : ∀ b ∈ bs, b < 256) :
    bs.flatMap escapeByte = bs.flatMap percentEncodeByte := by
  induction bs with
  | nil => rfl
  | cons b bs ih =>
    rw [List.flatMap_cons, List.flatMap_cons,
      escapeByte_eq_percentEncodeByte b (h b (List.mem_cons_self _ _)),
      ih (fun x hx => h x (List.mem_cons_of_mem _ hx))]

theorem utf8Bytes_ascii (s : String) (h : ∀ c ∈ s.data, c.toNat < 128) :
    utf8Bytes s = s.data.map Char.toNat := by
  unfold utf8Bytes
  obtain ⟨cs⟩ := s
  induction cs with
  | nil => rfl
  | cons c cs ih =>
    have hc : c.toNat < 128 := h c (List.mem_cons_self _ _)
    have hv : c.val ≤ 0x7f := by
      show c.val.toNat ≤ 127
      exact Nat.le_of_lt_succ hc
    have e : String.utf8EncodeChar c = [c.val.toUInt8] := by
      simp [String.utf8EncodeChar, hv]
    have hb : c.val.toUInt8.toNat = c.toNat := by
      show c.val.toNat % 256 = c.val.toNat
      exact Nat.mod_eq_of_lt (by have : c.val.toNat < 128 := hc; omega)
    simp only [List.flatMap_cons, List.map_append, List.map_cons, e, List.map_nil,
      List.singleton_append, hb]
    exact congrArg _ (ih (fun x hx => h x (List.mem_cons_of_mem _ hx)))

theorem fullQueryUrl_data (env : Env) (query : String) :
    (fullQueryUrl env query).data =
      (GOOGLE_PLACES_ENDPOINT ++ googlePlacesParams env ++ "&key=" ++ env.googleApiKey ++
        "&keyword=").data ++ (QueryEscape query).data := by
  simp [fullQueryUrl, additionalParams, String.data_append]

/-- C12: for every query the URL that `places` requests is the search endpoint
followed by the parameters location (the anchor), sensor=false,
rankby=distance, key (the credential) and keyword (the escaped query), in that
order, and `places` consults the network at that URL only.  The keyword value
is the percent-encoding of the UTF-8 bytes of the query: a space is written
`+`, a letter, digit or one of the marks `-`, `_`, `.`, `~` is written as it is,
and any other byte is written `%` and its two upper-case hexadecimal digits;
reading the value back gives the bytes of the query again.  The value holds
none of the characters `&`, `=`, `#`, `?` or space, so the number of parameter
delimiters in the URL is the same for every query. -/
theorem places_search_url (U : UnicodeTables) (env : Env) (query : String) :
    fullQueryUrl env query =
      GOOGLE_PLACES_ENDPOINT ++ "?" ++ "location=" ++ env.latLngPair ++
        "&" ++ "sensor=false" ++ "&" ++ "rankby=distance" ++
        "&" ++ "key=" ++ env.googleApiKey ++
        "&" ++ "keyword=" ++ QueryEscape query ∧
    (∀ net other : Net,
      net.Get (fullQueryUrl env query) = other.Get (fullQueryUrl env query) →
      net.Decode = other.Decode →
      places U env net query = places U env other query) ∧
    utf8Bytes query = query.toUTF8.data.toList.map UInt8.toNat ∧
    ((∀ c ∈ query.data, c.toNat < 128) → utf8Bytes query = query.data.map Char.toNat) ∧
    (QueryEscape query).data =
      (utf8Bytes query).flatMap (fun b =>
        if b = 32 then ['+']
        else if unreservedByte b then [Char.ofNat b]
        else ['%', hexDigit (b / 16), hexDigit (b % 16)]) ∧
    queryUnescape (QueryEscape query).data = some (utf8Bytes query) ∧
    (∀ ch ∈ (QueryEscape query).data,
      ch ≠ '&' ∧ ch ≠ '=' ∧ ch ≠ '#' ∧ ch ≠ ' ' ∧ ch ≠ '?') ∧
    (∀ (d : Char) (query2 : String), d = '&' ∨ d = '=' ∨ d = '#' ∨ d = ' ' ∨ d = '?' →
      (fullQueryUrl env query).data.count d = (fullQueryUrl env query2).data.count d) := by
  refine ⟨?_, ?_, ?_, ?_, ?_, ?_, ?_, ?_⟩
  · simp [fullQueryUrl, additionalParams, googlePlacesParams, String.ext_iff,
      String.data_append]
  · intro net other hg hd
    simp only [places, hg, hd]
  · rfl
  · exact utf8Bytes_ascii query
  · exact flatMap_escapeByte (utf8Bytes query) (utf8Bytes_lt query)
  · exact queryUnescape_escape (utf8Bytes query) (utf8Bytes_lt query)
  · intro ch hch
    exact escapedChar_not_delimiter ch (QueryEscape_escaped query ch hch)
  · intro d query2 hd
    rw [fullQueryUrl_data, fullQueryUrl_data, List.count_append, List.count_append,
      count_QueryEscape query d hd, count_QueryEscape query2 d hd]

theorem places_search_url_witness :
    fullQueryUrl sampleEnv "thé & café=#1" =
      "https://maps.googleapis.com/maps/api/place/nearbysearch/json" ++
      "?location=37.78,-122.41&sensor=false&rankby=distance&key=k" ++
      "&keyword=th%C3%A9+%26+caf%C3%A9%3D%231" ∧
    queryUnescape "tea+%26+coffee%3D%231".data = some ("tea & coffee=#1".data.map Char.toNat) ∧
    (fullQueryUrl sampleEnv "tea & coffee=#1").data.count '&' =
      (fullQueryUrl sampleEnv "tea").data.count '&' :=
  ⟨(places_search_url asciiTables sampleEnv "thé & café=#1").1.trans (by decide),
    (by decide : QueryEscape "tea & coffee=#1" = "tea+%26+coffee%3D%231") ▸
      ((places_search_url asciiTables sampleEnv "tea & coffee=#1").2.2.2.1 (by decide)) ▸
      (places_search_url asciiTables sampleEnv "tea & coffee=#1").2.2.2.2.2.1,
    (places_search_url asciiTables sampleEnv "tea & coffee=#1").2.2.2.2.2.2.2 '&' "tea"
      (Or.inl rfl)⟩

/-- C13: with the GET modelled as giving a transport error or a body, `places`
returns the text "error" whenever the GET fails, returns the rendering
`htmlPlaces` of the decoded places whenever the GET succeeds, always returns a
value, and returns "error" only when the GET failed. -/
theorem places_transport_error (U : UnicodeTables) (env : Env) (net : Net) (query : String) :
    (∀ e : String, net.Get (fullQueryUrl env query) = Except.error e →
      places U env net query = some "error") ∧
    (∀ body : String, net.Get (fullQueryUrl env query) = Except.ok body →
      places U env net query = htmlPlaces U env (net.Decode body).1 query) ∧
    (places U env net query).isSome = true ∧
    (places U env net query = some "error" ↔
      ∃ e : String, net.Get (fullQueryUrl env query) = Except.error e) := by
  refine ⟨fun e h => places_of_error U env net query e h,
    fun body h => places_of_ok U env net query body h, ?_, ?_⟩
  · cases h : net.Get (fullQueryUrl env query) with
    | error e => rw [places_of_error U env net query e h]; rfl
    | ok body => rw [places_of_ok U env net query body h]; exact htmlPlaces_isSome _ _ _ _
  · cases h : net.Get (fullQueryUrl env query) with
    | error e => simp [places_of_error U env net query e h]
    | ok body =>
      rw [places_of_ok U env net query body h]
      simp [htmlPlaces_ne_sentinel]

theorem places_transport_error_witness :
    places asciiTables sampleEnv deadNet "cafe" = some "error" ∧
    places asciiTables sampleEnv goodNet "cafe" =
      htmlPlaces asciiTables sampleEnv [cafeA, cafeB] "cafe" :=
  ⟨(places_transport_error asciiTables sampleEnv deadNet "cafe").1 _ rfl,
    (places_transport_error asciiTables sampleEnv goodNet "cafe").2.1 _ rfl⟩

/-- C14: when the GET succeeds and the decoder reports an error, `places` still
returns the rendering of the places the decoder left in the response: it
returns a value, that value is not the text "error", and when no place was
left it is the empty-list rendering `htmlPlaces [] query`. -/
theorem places_decode_error (U : UnicodeTables) (env : Env) (net : Net) (query body err : String)
    (hget : net.Get (fullQueryUrl env query) = Except.ok body)
    (_herr : (net.Decode body).2 = some err) :
    places U env net query = htmlPlaces U env (net.Decode body).1 query ∧
    (places U env net query).isSome = true ∧
    places U env net query ≠ some "error" ∧
    ((net.Decode body).1 = [] → places U env net query = htmlPlaces U env [] query) := by
  have h := places_of_ok U env net query body hget
  refine ⟨h, ?_, ?_, ?_⟩
  · rw [h]; exact htmlPlaces_isSome _ _ _ _
  · rw [h]; exact htmlPlaces_ne_sentinel _ _ _ _
  · intro hnil; rw [h, hnil]

theorem places_decode_error_witness :
    garbledNet.Get (fullQueryUrl sampleEnv "cafe") = Except.ok "<html>502</html>" ∧
    (garbledNet.Decode "<html>502</html>").2 =
      some "invalid character '<' looking for beginning of value" ∧
    places asciiTables sampleEnv garbledNet "cafe" = htmlPlaces asciiTables sampleEnv [] "cafe" :=
  ⟨rfl, rfl,
    (places_decode_error asciiTables sampleEnv garbledNet "cafe" "<html>502</html>"
      "invalid character '<' looking for beginning of value" rfl rfl).2.2.2 rfl⟩


/-! ## The accesses of the loop -/

theorem rangeLoopTraced_result (places : List Place) :
    ∀ (n i : Nat) (st : String × String),
      (rangeLoopTraced places n i st).2 = rangeLoop places n i st := by
  intro n
  induction n with
  | zero => intro i st; rfl
  | succ n ih =>
    intro i st
    obtain ⟨html, markers⟩ := st
    simp only [rangeLoopTraced, rangeLoop]
    split
    · rfl
    · split
      · exact ih _ _
      · rfl

theorem rangeLoopTraced_bounds (places : List Place) :
    ∀ (n i : Nat) (st : String × String) (k : Nat),
      k ∈ (rangeLoopTraced places n i st).1 → i ≤ k ∧ k ≤ 3 ∧ k < i + n := by
  intro n
  induction n with
  | zero => intro i st k hk; simp [rangeLoopTraced] at hk
  | succ n ih =>
    intro i st k hk
    obtain ⟨html, markers⟩ := st
    simp only [rangeLoopTraced] at hk
    split at hk
    · simp at hk
    · rename_i hi
      split at hk
      · simp only [List.mem_cons] at hk
        rcases hk with rfl | hk
        · omega
        · have := ih _ _ _ hk
          omega
      · simp only [List.mem_singleton] at hk
        omega

theorem rangeLoopTraced_indices (rest : List Place) :
    ∀ (pre : List Place) (st : String × String),
      (rangeLoopTraced (pre ++ rest) rest.length pre.length st).1 =
        List.range' pre.length (min rest.length (4 - pre.length)) := by
  induction rest with
  | nil => intro pre st; simp [rangeLoopTraced]
  | cons p rest ih =>
    intro pre st
    obtain ⟨html, markers⟩ := st
    by_cases hi : pre.length > 3
    · have h4 : 4 - pre.length = 0 := by omega
      simp [rangeLoopTraced, hi, h4]
    · obtain ⟨L, Ls, hL⟩ : ∃ L Ls, renderedLabels.drop pre.length = L :: Ls := by
        cases hd : renderedLabels.drop pre.length with
        | nil =>
          have := List.drop_eq_nil_iff.mp hd
          simp [renderedLabels] at this; omega
        | cons L Ls => exact ⟨L, Ls, rfl⟩
      obtain ⟨ha, _⟩ := alphabet_of_drop pre.length L Ls hL
      have hget : (pre ++ p :: rest)[pre.length]? = some p := by
        rw [List.getElem?_append_right (le_refl _)]; simp
      have hstep := ih (pre ++ [p])
      simp only [List.append_assoc, List.singleton_append, List.length_append,
        List.length_singleton] at hstep
      have hmin : min (rest.length + 1) (4 - pre.length) =
          min rest.length (4 - (pre.length + 1)) + 1 := by omega
      simp only [List.length_cons, rangeLoopTraced, hi, if_false, hget, ha, hstep, hmin,
        List.range'_succ]


theorem zipWith_take_labels (places : List Place) :
    List.zipWith markerParam (renderedLabels.take places.length) places =
      markerParams places := by
  match places with
  | [] => rfl
  | [_] => rfl
  | [_, _] => rfl
  | [_, _, _] => rfl
  | _ :: _ :: _ :: _ :: _ => simp [markerParams, renderedLabels]

theorem listItem_congr (p q : Place) (h : agreeExceptIcon p q) : listItem p = listItem q := by
  obtain ⟨h1, h2, h3, h4, _, _⟩ := h
  simp [listItem, h1, h2, h3, h4]

theorem markerParam_congr (L : String) (p q : Place) (h : agreeExceptIcon p q) :
    markerParam L p = markerParam L q := by
  obtain ⟨_, _, _, _, h5, h6⟩ := h
  simp [markerParam, h5, h6]

/-- C15: for every list of places, of any length, and every query, the body of
the loop of `htmlPlaces` runs at the indices 0 to min(len, 4) - 1 and at no
other; each of them is at most 3, so `alphabet` returns a letter for it, and is
below the length of the list, so `places[i]` is within bounds; `htmlPlaces`
always returns a string. -/
theorem htmlPlaces_in_range (U : UnicodeTables) (env : Env) (places : List Place)
    (query : String) :
    (∀ st : String × String,
      (rangeLoopTraced places places.length 0 st).2 = rangeLoop places places.length 0 st ∧
      (rangeLoopTraced places places.length 0 st).1 = List.range (min places.length 4) ∧
      ∀ i ∈ (rangeLoopTraced places places.length 0 st).1,
        (0 ≤ (i : Int) ∧ (i : Int) ≤ 3) ∧ (alphabet (i : Int)).isSome = true ∧
        i < places.length ∧ (places[i]?).isSome = true) ∧
    (htmlPlaces U env places query).isSome = true := by
  refine ⟨fun st => ⟨rangeLoopTraced_result places _ _ st, ?_, ?_⟩, htmlPlaces_isSome _ _ _ _⟩
  · have h := rangeLoopTraced_indices places [] st
    simp only [List.nil_append, List.length_nil, Nat.sub_zero] at h
    rw [h, List.range_eq_range']
  · intro i hi
    obtain ⟨_, h3, hlen⟩ := rangeLoopTraced_bounds places _ _ st i hi
    have hlen : i < places.length := by omega
    refine ⟨⟨by omega, by omega⟩, ?_, hlen, ?_⟩
    · have : i = 0 ∨ i = 1 ∨ i = 2 ∨ i = 3 := by omega
      rcases this with rfl | rfl | rfl | rfl <;> rfl
    · rw [List.getElem?_eq_getElem hlen]; rfl

theorem htmlPlaces_in_range_witness :
    (rangeLoopTraced [cafeA, cafeB, cafeC, cafeD, cafeE, cafeA, cafeB, cafeC] 8 0 ("", "")).1 =
      List.range 4 ∧
    (htmlPlaces asciiTables sampleEnv [cafeA, cafeB, cafeC, cafeD, cafeE, cafeA, cafeB, cafeC]
      "cafe").isSome = true :=
  ⟨((htmlPlaces_in_range asciiTables sampleEnv
      [cafeA, cafeB, cafeC, cafeD, cafeE, cafeA, cafeB, cafeC] "cafe").1 ("", "")).2.1,
    (htmlPlaces_in_range asciiTables sampleEnv
      [cafeA, cafeB, cafeC, cafeD, cafeE, cafeA, cafeB, cafeC] "cafe").2⟩

/-- C16: the output of `htmlPlaces` does not depend on the API credential: two
environments with the same anchor give the same output for every list of
places and query, whatever their credentials; the credential goes into the
search URL built by `places`, as the value of its key parameter. -/
theorem htmlPlaces_credential_free (U : UnicodeTables) (env other : Env) (places : List Place)
    (query : String) (h : env.latLngPair = other.latLngPair) :
    htmlPlaces U env places query = htmlPlaces U other places query ∧
    contains (fullQueryUrl env query) ("&key=" ++ env.googleApiKey ++ "&") := by
  constructor
  · rw [htmlPlaces_eq_renderSpec, htmlPlaces_eq_renderSpec]
    simp [renderSpec, imageTag, h]
  · refine ⟨(GOOGLE_PLACES_ENDPOINT ++ googlePlacesParams env).data,
      ("keyword=" ++ QueryEscape query).data, ?_⟩
    simp [fullQueryUrl, additionalParams, String.data_append]

theorem htmlPlaces_credential_free_witness :
    htmlPlaces asciiTables ⟨"37.78,-122.41", "key-one"⟩ [cafeA, cafeB] "cafe" =
      htmlPlaces asciiTables ⟨"37.78,-122.41", "key-two"⟩ [cafeA, cafeB] "cafe" :=
  (htmlPlaces_credential_free asciiTables ⟨"37.78,-122.41", "key-one"⟩
    ⟨"37.78,-122.41", "key-two"⟩ [cafeA, cafeB] "cafe" rfl).1

/-- C17: the output of `htmlPlaces` ignores the Icon field: two lists of places
of equal length that agree position by position on Name, Address, Rating,
OpenNow, Lat and Lng give the same output for every query. -/
theorem htmlPlaces_icon_free (U : UnicodeTables) (env : Env) (ps qs : List Place)
    (query : String) (h : List.Forall₂ agreeExceptIcon ps qs) :
    htmlPlaces U env ps query = htmlPlaces U env qs query := by
  have hitems : ∀ n : Nat, (ps.take n).map listItem = (qs.take n).map listItem := by
    intro n
    induction h generalizing n with
    | nil => rfl
    | cons hpq _ ih =>
      cases n with
      | zero => rfl
      | succ n => simp [listItem_congr _ _ hpq, ih n]
  have hmarks : ∀ labels : List String,
      List.zipWith markerParam labels ps = List.zipWith markerParam labels qs := by
    clear hitems
    intro labels
    induction h generalizing labels with
    | nil => simp
    | cons hpq _ ih =>
      cases labels with
      | nil => rfl
      | cons L Ls => simp [markerParam_congr L _ _ hpq, ih Ls]
  rw [htmlPlaces_eq_renderSpec, htmlPlaces_eq_renderSpec]
  simp only [renderSpec, markerParams, hitems 4, hmarks renderedLabels]

theorem htmlPlaces_icon_free_witness :
    cafeA.Icon ≠ cafeAIcon.Icon ∧
    htmlPlaces asciiTables sampleEnv [cafeA, cafeB] "cafe" =
      htmlPlaces asciiTables sampleEnv [cafeAIcon, cafeB] "cafe" :=
  ⟨by decide,
    htmlPlaces_icon_free asciiTables sampleEnv [cafeA, cafeB] [cafeAIcon, cafeB] "cafe"
      (List.Forall₂.cons ⟨rfl, rfl, rfl, rfl, rfl, rfl⟩
        (List.Forall₂.cons ⟨rfl, rfl, rfl, rfl, rfl, rfl⟩ List.Forall₂.nil))⟩

/-- C18: `alphabet` is injective on the indices 0 to 6, and in every output of
`htmlPlaces` the labels given to the rendered entries, the values of `alphabet`
at the rendered positions, are pairwise distinct. -/
theorem marker_labels_distinct :
    (∀ i j : Int, 0 ≤ i → i ≤ 6 → 0 ≤ j → j ≤ 6 → alphabet i = alphabet j → i = j) ∧
    ∀ (U : UnicodeTables) (env : Env) (places : List Place) (query : String),
      ∃ labels : List String,
        labels.length = min places.length 4 ∧
        (∀ k : Nat, k < min places.length 4 → labels[k]? = alphabet (k : Int)) ∧
        labels.Nodup ∧
        htmlPlaces U env places query =
          some (titleLine U query ++ "<ul>" ++
            concatAll ((places.take 4).map listItem) ++ "</ul><br>" ++
            ("<img src='" ++ GOOGLE_MAPS_ENDPOINT ++ googleMapsParams env ++
              concatAll (List.zipWith markerParam labels places) ++ "'>")) := by
  constructor
  · intro i j hi0 hi6 hj0 hj6 h
    interval_cases i <;> interval_cases j <;> first | rfl | (exact absurd h (by decide))
  · intro U env places query
    refine ⟨renderedLabels.take places.length, ?_, ?_, ?_, ?_⟩
    · simp [renderedLabels, Nat.min_comm]
    · intro k hk
      have hk4 : k < 4 := by omega
      have hkl : k < places.length := by omega
      rw [List.getElem?_take_of_lt hkl]
      have : k = 0 ∨ k = 1 ∨ k = 2 ∨ k = 3 := by omega
      rcases this with rfl | rfl | rfl | rfl <;> rfl
    · exact List.Nodup.sublist (List.take_sublist _ _) (by decide)
    · rw [htmlPlaces_eq_renderSpec, zipWith_take_labels]
      simp [renderSpec, imageTag, googleMapsParams, concatAll, String.ext_iff,
        String.data_append]

theorem marker_labels_distinct_witness :
    (alphabet 3 = alphabet 3 ∧ (3 : Int) = 3) ∧
    ∃ labels : List String,
      labels.length = min [cafeA, cafeB, cafeC].length 4 ∧
      (∀ k : Nat, k < min [cafeA, cafeB, cafeC].length 4 → labels[k]? = alphabet (k : Int)) ∧
      labels.Nodup :=
  ⟨⟨rfl, marker_labels_distinct.1 3 3 (by decide) (by decide) (by decide) (by decide) rfl⟩,
    (marker_labels_distinct.2 asciiTables sampleEnv [cafeA, cafeB, cafeC] "cafe").imp
      (fun _ hx => ⟨hx.1, hx.2.1, hx.2.2.1⟩)⟩

end Places
